import Mathlib

/-!
Verification of the annotation-normalization pipeline of the
htt2_classification repository.

The Python sources are embedded shallowly: pure per-record computations
become Lean functions over exact rationals (Python floats are idealized as
rationals; every quantity handled by the claims is small and exactly
representable, and the spec states its formulas exactly), file contents
become explicit lists, the filesystem becomes a lookup function, and the
per-file loops become folds.  Each section names the Python source it
embeds.
-/

namespace Htt2

/-! ### Coordinate normalizer and label-line writer
Embeds scripts/convert_voc_to_yolo_with_splits.py (process_split,
lines 130-147) and its CLASS_MAPPING table. -/

/-- One absolute VOC bounding box, pixel corner coordinates. -/
structure BoxA where
  xmin : ℚ
  ymin : ℚ
  xmax : ℚ
  ymax : ℚ
deriving DecidableEq, Repr

/-- Class table of the converter: id to Chinese class name
(0 fiducial marker, 1 missing fastener, 2 present fastener, 3 board body). -/
def CLASS_MAPPING : List (ℤ × String) :=
  [(0, "控制适应标识"), (1, "无螺丝"), (2, "有螺丝"), (3, "电路板")]

/-- Class-name lookup of the converter: scan CLASS_MAPPING for a matching
name and return its id, none for an unknown name. -/
def clsIdOfName (n : String) : Option ℤ :=
  (CLASS_MAPPING.find? (fun p => p.2 = n)).map (fun p => p.1)

/-- Clamping of one normalized coordinate into the unit interval,
from the max(0.0, min(1.0, x)) lines of process_split. -/
def clamp01 (q : ℚ) : ℚ := max 0 (min 1 q)

/-- Rounding to the nearest integer with ties to even, the rounding used
by Python's fixed-point float formatting. -/
def roundHalfEven (q : ℚ) : ℤ :=
  let f := ⌊q⌋
  if q - f < 1/2 then f
  else if 1/2 < q - f then f + 1
  else if f % 2 = 0 then f else f + 1

/-- Left-padding of a numeral string with zeros to width 6. -/
def padZeros6 (s : String) : String :=
  String.mk (List.replicate (6 - s.length) '0') ++ s

/-- Fixed 6-decimal formatting of a nonnegative rational, the model of
a Python .6f format of the value. -/
def fmt6 (q : ℚ) : String :=
  let n := (roundHalfEven (q * 1000000)).toNat
  toString (n / 1000000) ++ "." ++ padZeros6 (toString (n % 1000000))

/-- One written YOLO label line, translated from process_split lines
130-147: normalize the box to center/size fractions, clamp each of the
four components into the unit interval, format to 6 decimals. -/
def yoloRecordLine (clsId : ℤ) (b : BoxA) (w h : ℚ) : String :=
  let xCenter := (b.xmin + b.xmax) / 2 / w
  let yCenter := (b.ymin + b.ymax) / 2 / h
  let bWidth := (b.xmax - b.xmin) / w
  let bHeight := (b.ymax - b.ymin) / h
  let xCenter := clamp01 xCenter
  let yCenter := clamp01 yCenter
  let bWidth := clamp01 bWidth
  let bHeight := clamp01 bHeight
  toString clsId ++ " " ++ fmt6 xCenter ++ " " ++ fmt6 yCenter ++ " " ++
    fmt6 bWidth ++ " " ++ fmt6 bHeight

/-- Normalization formulas as the specification states them: center and
size divided by the image dimensions, each component independently
clamped to the unit interval after division. -/
def specNormalize (b : BoxA) (w h : ℚ) : ℚ × ℚ × ℚ × ℚ :=
  (clamp01 ((b.xmin + b.xmax) / 2 / w),
   clamp01 ((b.ymin + b.ymax) / 2 / h),
   clamp01 ((b.xmax - b.xmin) / w),
   clamp01 ((b.ymax - b.ymin) / h))

theorem clamp01_of_mem (q : ℚ) (h0 : 0 ≤ q) (h1 : q ≤ 1) : clamp01 q = q := by
  unfold clamp01
  rw [min_eq_right h1, max_eq_right h0]

theorem roundHalfEven_intCast (z : ℤ) : roundHalfEven (z : ℚ) = z := by
  unfold roundHalfEven
  norm_num

theorem fmt6_eq_of_mul (q : ℚ) (n : ℕ) (h : q * 1000000 = (n : ℚ)) :
    fmt6 q = toString (n / 1000000) ++ "." ++ padZeros6 (toString (n % 1000000)) := by
  unfold fmt6
  rw [h, show ((n : ℚ)) = ((n : ℤ) : ℚ) by push_cast; ring, roundHalfEven_intCast]
  simp

theorem yoloRecordLine_scenario : yoloRecordLine 1 ⟨10, 10, 50, 50⟩ 100 100 =
    "1 0.300000 0.300000 0.400000 0.400000" := by
  simp only [yoloRecordLine]
  rw [show ((10:ℚ) + 50) / 2 / 100 = 3/10 by norm_num,
      show ((50:ℚ) - 10) / 100 = 2/5 by norm_num,
      clamp01_of_mem (3/10) (by norm_num) (by norm_num),
      clamp01_of_mem (2/5) (by norm_num) (by norm_num),
      fmt6_eq_of_mul (3/10) 300000 (by norm_num),
      fmt6_eq_of_mul (2/5) 400000 (by norm_num)]
  decide

/-- C1: for every source record with class id c and absolute box on an
image of width and height at least 1, the converter writes the line
built from the four normalized components, each independently clamped to
the unit interval after division and formatted to exactly 6 decimals;
the class named 无螺丝 (missing-fastener) maps to id 1, and the box
(10,10,50,50) on a 100x100 image yields exactly the line
1 0.300000 0.300000 0.400000 0.400000. -/
theorem C1_converter_line (c : ℤ) (b : BoxA) (w h : ℚ)
    (hw : 1 ≤ w) (hh : 1 ≤ h) :
    yoloRecordLine c b w h =
      toString c ++ " " ++ fmt6 (specNormalize b w h).1 ++ " " ++
        fmt6 (specNormalize b w h).2.1 ++ " " ++
        fmt6 (specNormalize b w h).2.2.1 ++ " " ++
        fmt6 (specNormalize b w h).2.2.2 ∧
    clsIdOfName "无螺丝" = some 1 ∧
    yoloRecordLine 1 ⟨10, 10, 50, 50⟩ 100 100 =
      "1 0.300000 0.300000 0.400000 0.400000" :=
  ⟨rfl, by decide, yoloRecordLine_scenario⟩

/-- Witness for C1 at the concrete scenario input. -/
theorem C1_converter_line_witness :
    yoloRecordLine 1 ⟨10, 10, 50, 50⟩ 100 100 =
      toString (1 : ℤ) ++ " " ++ fmt6 (specNormalize ⟨10, 10, 50, 50⟩ 100 100).1 ++ " " ++
        fmt6 (specNormalize ⟨10, 10, 50, 50⟩ 100 100).2.1 ++ " " ++
        fmt6 (specNormalize ⟨10, 10, 50, 50⟩ 100 100).2.2.1 ++ " " ++
        fmt6 (specNormalize ⟨10, 10, 50, 50⟩ 100 100).2.2.2 ∧
    clsIdOfName "无螺丝" = some 1 ∧
    yoloRecordLine 1 ⟨10, 10, 50, 50⟩ 100 100 =
      "1 0.300000 0.300000 0.400000 0.400000" :=
  C1_converter_line 1 ⟨10, 10, 50, 50⟩ 100 100 (by norm_num) (by norm_num)

/-! ### PCB status analyzer
Embeds src/infer.py, Inference._analyze_pcb_status (lines 120-148).
The detection result is modelled by the list of its detections' class
ids; none models a result object without a boxes collection, which the
source maps to the status string unknown. -/

/-- Status analyzer translated from _analyze_pcb_status: scan the
detections setting a flag for class 1 (missing fastener) and a flag for
class 3 (board body); abnormal when both flags are set, else normal;
unknown when there is no boxes collection at all. -/
def analyzePcbStatus (boxes : Option (List ℤ)) : String :=
  match boxes with
  | none => "unknown"
  | some l =>
    let flags := l.foldl
      (fun (fl : Bool × Bool) c =>
        if c = 1 then (true, fl.2) else if c = 3 then (fl.1, true) else fl)
      (false, false)
    if flags.2 && flags.1 then "abnormal" else "normal"

theorem pcbFlags_eq (l : List ℤ) (a b : Bool) :
    l.foldl
      (fun (fl : Bool × Bool) c =>
        if c = 1 then (true, fl.2) else if c = 3 then (fl.1, true) else fl)
      (a, b) = (a || decide (1 ∈ l), b || decide (3 ∈ l)) := by
  induction l generalizing a b with
  | nil => simp
  | cons x xs ih =>
    simp only [List.foldl_cons, List.mem_cons]
    by_cases h1 : x = 1
    · subst h1
      rw [if_pos rfl, ih]
      simp
    · rw [if_neg h1]
      by_cases h3 : x = 3
      · subst h3
        rw [if_pos rfl, ih]
        simp [h1]
      · rw [if_neg h3, ih]
        have e1 : (1 : ℤ) ≠ x := fun h => h1 h.symm
        have e3 : (3 : ℤ) ≠ x := fun h => h3 h.symm
        simp [e1, e3]

/-- C2 counterexample: a detection result carrying no boxes collection
contains no detection at all, yet the analyzer marks it unknown, not
normal, so not every detection result without the co-occurrence is
marked normal. -/
theorem C2_unknown_counterexample :
    analyzePcbStatus none = "unknown" ∧ analyzePcbStatus none ≠ "normal" := by
  constructor
  · rfl
  · intro h
    exact absurd h (by decide)

/-- C2 amended: for every detection result that carries a boxes
collection, the analyzer marks it abnormal iff a class-1 detection and a
class-3 detection co-occur, and normal otherwise; a result without a
boxes collection is marked unknown. -/
theorem C2_analyzer_amended (l : List ℤ) :
    analyzePcbStatus (some l) =
      (if 1 ∈ l ∧ 3 ∈ l then "abnormal" else "normal") ∧
    analyzePcbStatus none = "unknown" := by
  refine ⟨?_, rfl⟩
  simp only [analyzePcbStatus, pcbFlags_eq, Bool.false_or]
  by_cases h1 : 1 ∈ l <;> by_cases h3 : 3 ∈ l <;> simp [h1, h3]

/-! ### Box validator and swap repair
Embeds scripts/fix_invalid_bbox.py (fix_invalid_bbox_advanced, lines
49-81) and scripts/fix_voc_labels.py (fix_invalid_bbox, lines 151-176). -/

/-- Verdict of fix_invalid_bbox_advanced on one parsed box: the elif
chain of lines 52-71 in source order; true means the object is marked
invalid and removed from the annotation file. -/
def advancedBoxInvalid (w h : ℚ) (b : BoxA) : Bool :=
  if b.xmin ≥ b.xmax then true
  else if b.ymin ≥ b.ymax then true
  else if b.xmin < 0 ∨ b.ymin < 0 ∨ b.xmax > w ∨ b.ymax > h then true
  else if (b.xmax - b.xmin) * (b.ymax - b.ymin) < 4 then true
  else false

/-- Swap repair of fix_voc_labels.py's fix_invalid_bbox: when
xmin ≥ xmax the two x coordinates are exchanged; nothing else is
changed, nothing is re-validated and nothing is dropped. -/
def fixSwapX (b : BoxA) : BoxA :=
  if b.xmin ≥ b.xmax then ⟨b.xmax, b.ymin, b.xmin, b.ymax⟩ else b

/-- C7 counterexample: the axis-inverted box (50,10,10,50) on a 100x100
image would be fully valid after swapping the x coordinates, yet
fix_invalid_bbox_advanced classifies it invalid (removing it) instead of
repairing it, so inverted boxes are dropped outright, not
swap-repaired-then-revalidated. -/
theorem C7_dropped_outright_counterexample :
    advancedBoxInvalid 100 100 ⟨50, 10, 10, 50⟩ = true ∧
    advancedBoxInvalid 100 100 ⟨10, 10, 50, 50⟩ = false := by
  constructor
  · simp only [advancedBoxInvalid]
    norm_num
  · simp only [advancedBoxInvalid]
    norm_num

/-- C7 amended: fix_invalid_bbox_advanced classifies every box with
xmin ≥ xmax or ymin ≥ ymax invalid and removes it without attempting a
swap; the swap repair lives only in fix_voc_labels.py's
fix_invalid_bbox, which swaps just xmin/xmax when xmin ≥ xmax, performs
no re-validation afterwards, and leaves ymin ≥ ymax unrepaired. -/
theorem C7_validator_amended (w h : ℚ) (b : BoxA) :
    ((b.xmax ≤ b.xmin ∨ b.ymax ≤ b.ymin) → advancedBoxInvalid w h b = true) ∧
    (b.xmax ≤ b.xmin → fixSwapX b = ⟨b.xmax, b.ymin, b.xmin, b.ymax⟩) ∧
    (b.xmin < b.xmax → fixSwapX b = b) := by
  refine ⟨?_, ?_, ?_⟩
  · rintro (hx | hy)
    · simp [advancedBoxInvalid, hx]
    · by_cases hx : b.xmax ≤ b.xmin
      · simp [advancedBoxInvalid, hx]
      · simp [advancedBoxInvalid, hx, hy, ge_iff_le]
  · intro hx
    simp [fixSwapX, hx, ge_iff_le]
  · intro hx
    simp [fixSwapX, not_le.mpr hx, ge_iff_le]

/-- Witness for C7 amended at the inverted box (50,10,10,50). -/
theorem C7_validator_amended_witness :
    advancedBoxInvalid 100 100 ⟨50, 10, 10, 50⟩ = true ∧
    fixSwapX ⟨50, 10, 10, 50⟩ = ⟨10, 10, 50, 50⟩ :=
  ⟨(C7_validator_amended 100 100 ⟨50, 10, 10, 50⟩).1 (Or.inl (by norm_num)),
   (C7_validator_amended 100 100 ⟨50, 10, 10, 50⟩).2.1 (by norm_num)⟩

/-! ### Dataset consistency checker
Embeds scripts/check_dataset.py (check_yolo_dataset, lines 42-166).
A label line is the list of its whitespace-separated tokens; a token is
modelled by the outcome of Python's int() and float() conversions on it:
tokInt when both succeed (any token int() accepts is also a float),
tokFloat when only float() succeeds, tokBad when neither does. -/

/-- One whitespace-separated token of a label line. -/
inductive Tok where
  | tokInt (n : ℤ)
  | tokFloat (q : ℚ)
  | tokBad
deriving DecidableEq, Repr

/-- Result of Python's int() on the token. -/
def Tok.asInt : Tok → Option ℤ
  | tokInt n => some n
  | tokFloat _ => none
  | tokBad => none

/-- Result of Python's float() on the token. -/
def Tok.asFloat : Tok → Option ℚ
  | tokInt n => some n
  | tokFloat q => some q
  | tokBad => none

/-- Class ids of the configured table, the keys of CLASS_MAPPING. -/
def classIds : List ℤ := CLASS_MAPPING.map (fun p => p.1)

/-- Acceptance of one label line by the checker, following
check_yolo_dataset lines 85-120: exactly 5 tokens, the first converts
with int(), the other four with float(), the class id is in the table
and the four floats lie in the unit interval; the accepted class id is
returned, and none marks the line as a format error. -/
def lineClass (parts : List Tok) : Option ℤ :=
  match parts with
  | [p0, p1, p2, p3, p4] =>
    match p0.asInt, p1.asFloat, p2.asFloat, p3.asFloat, p4.asFloat with
    | some c, some x, some y, some bw, some bh =>
      if c ∈ classIds then
        if 0 ≤ x ∧ x ≤ 1 ∧ 0 ≤ y ∧ y ≤ 1 ∧ 0 ≤ bw ∧ bw ≤ 1 ∧ 0 ≤ bh ∧ bh ≤ 1 then
          some c
        else none
      else none
    | _, _, _, _, _ => none
  | _ => none

/-- Report of check_yolo_dataset. -/
structure CheckReport where
  missingImages : List String
  missingLabels : List String
  errorFiles : List String
  classDist : List ℤ
  verdict : Bool
deriving DecidableEq, Repr

/-- Per-file content scan of lines 85-120: every line failing validation
appends the file key to the error-file list, every accepted line appends
its class id to the running class distribution. -/
def scanLabelFile (k : String) (lines : List (List Tok))
    (acc : List String × List ℤ) : List String × List ℤ :=
  lines.foldl
    (fun acc2 line =>
      match lineClass line with
      | none => (acc2.1 ++ [k], acc2.2)
      | some c => (acc2.1, acc2.2 ++ [c]))
    acc

/-- Checker translated from check_yolo_dataset: compute the two
dangling-reference sets by set difference, scan the label files of the
keys present on both sides, and pass iff both dangling sets and the
error-file list are empty. -/
def checkYoloDataset (imageKeys labelKeys : List String)
    (content : String → List (List Tok)) : CheckReport :=
  let missingImages := labelKeys.filter (fun k => ¬ k ∈ imageKeys)
  let missingLabels := imageKeys.filter (fun k => ¬ k ∈ labelKeys)
  let common := imageKeys.filter (fun k => k ∈ labelKeys)
  let scanned := common.foldl (fun acc k => scanLabelFile k (content k) acc) ([], [])
  { missingImages := missingImages
    missingLabels := missingLabels
    errorFiles := scanned.1
    classDist := scanned.2
    verdict := missingImages.isEmpty && missingLabels.isEmpty && scanned.1.isEmpty }

theorem scanLabelFile_eq (k : String) (lines : List (List Tok))
    (acc : List String × List ℤ) :
    scanLabelFile k lines acc =
      (acc.1 ++ (lines.filter (fun l => (lineClass l).isNone)).map (fun _ => k),
       acc.2 ++ lines.filterMap lineClass) := by
  induction lines generalizing acc with
  | nil => simp [scanLabelFile]
  | cons l ls ih =>
    simp only [scanLabelFile, List.foldl_cons] at ih ⊢
    cases h : lineClass l with
    | none => simp [ih, h]
    | some c => simp [ih, h]

theorem checkScan_eq (common : List String) (content : String → List (List Tok))
    (acc : List String × List ℤ) :
    common.foldl (fun acc k => scanLabelFile k (content k) acc) acc =
      (acc.1 ++ common.flatMap
         (fun k => ((content k).filter (fun l => (lineClass l).isNone)).map (fun _ => k)),
       acc.2 ++ common.flatMap (fun k => (content k).filterMap lineClass)) := by
  induction common generalizing acc with
  | nil => simp
  | cons k ks ih =>
    simp only [List.foldl_cons, List.flatMap_cons]
    rw [scanLabelFile_eq, ih]
    simp

/-- Error files of the checker, characterized: one copy of the file key
per invalid line, over the keys common to both stores. -/
theorem checker_errorFiles_eq (imageKeys labelKeys : List String)
    (content : String → List (List Tok)) :
    (checkYoloDataset imageKeys labelKeys content).errorFiles =
      (imageKeys.filter (fun k => k ∈ labelKeys)).flatMap
        (fun k => ((content k).filter (fun l => (lineClass l).isNone)).map (fun _ => k)) := by
  simp only [checkYoloDataset, checkScan_eq]
  simp

/-- Class distribution of the checker, characterized: the accepted class
ids of every line of every common key's label file, in file order. -/
theorem checker_classDist_eq (imageKeys labelKeys : List String)
    (content : String → List (List Tok)) :
    (checkYoloDataset imageKeys labelKeys content).classDist =
      (imageKeys.filter (fun k => k ∈ labelKeys)).flatMap
        (fun k => (content k).filterMap lineClass) := by
  simp only [checkYoloDataset, checkScan_eq]
  simp

/-- C4: the checker passes iff there is no label key without an image,
no image key without a label, and no common key whose label file has a
line failing validation; each dangling set is the corresponding set
difference. -/
theorem C4_checker_pass_iff (imageKeys labelKeys : List String)
    (content : String → List (List Tok)) :
    ((checkYoloDataset imageKeys labelKeys content).verdict = true ↔
      ((∀ k ∈ labelKeys, k ∈ imageKeys) ∧ (∀ k ∈ imageKeys, k ∈ labelKeys) ∧
       ∀ k ∈ imageKeys, k ∈ labelKeys →
         ∀ line ∈ content k, (lineClass line).isSome = true)) ∧
    (checkYoloDataset imageKeys labelKeys content).missingImages =
      labelKeys.filter (fun k => ¬ k ∈ imageKeys) ∧
    (checkYoloDataset imageKeys labelKeys content).missingLabels =
      imageKeys.filter (fun k => ¬ k ∈ labelKeys) := by
  refine ⟨?_, rfl, rfl⟩
  have he := checker_errorFiles_eq imageKeys labelKeys content
  simp only [checkYoloDataset] at he ⊢
  rw [he]
  simp only [Bool.and_eq_true, List.isEmpty_iff, List.filter_eq_nil_iff,
    List.flatMap_eq_nil_iff, List.mem_filter, List.map_eq_nil_iff,
    List.filter_eq_nil_iff, decide_eq_true_eq, not_not]
  constructor
  · rintro ⟨⟨h1, h2⟩, h3⟩
    refine ⟨fun k hk => by simpa using h1 k hk, fun k hk => by simpa using h2 k hk,
      fun k hk hk2 line hl => ?_⟩
    have := h3 k ⟨hk, by simpa using hk2⟩ line hl
    simpa [Option.isNone_iff_eq_none, Option.isSome_iff_ne_none] using this
  · rintro ⟨h1, h2, h3⟩
    refine ⟨⟨fun k hk => by simpa using h1 k hk, fun k hk => by simpa using h2 k hk⟩,
      fun k hk line hl => ?_⟩
    have := h3 k hk.1 (by simpa using hk.2) line hl
    simpa [Option.isNone_iff_eq_none, Option.isSome_iff_ne_none] using this

/-- Line acceptance as the specification states it: exactly 5 tokens,
the first a class id of the configured table, the remaining four parsing
as floats inside the unit interval. -/
def specLineOk (parts : List Tok) : Prop :=
  parts.length = 5 ∧
  (∃ c, parts.head?.bind Tok.asInt = some c ∧ c ∈ classIds) ∧
  ∀ t ∈ parts.tail, ∃ q, t.asFloat = some q ∧ 0 ≤ q ∧ q ≤ 1

theorem lineClass_isSome_iff (parts : List Tok) :
    (lineClass parts).isSome = true ↔ specLineOk parts := by
  unfold specLineOk
  rcases parts with _ | ⟨p0, _ | ⟨p1, _ | ⟨p2, _ | ⟨p3, _ | ⟨p4, _ | ⟨p5, rest⟩⟩⟩⟩⟩⟩
  · simp [lineClass]
  · simp [lineClass]
  · simp [lineClass]
  · simp [lineClass]
  · simp [lineClass]
  · constructor
    · intro h
      cases h0 : p0.asInt with
      | none => simp [lineClass, h0] at h
      | some c =>
        cases h1 : p1.asFloat with
        | none => simp [lineClass, h0, h1] at h
        | some x =>
          cases h2 : p2.asFloat with
          | none => simp [lineClass, h0, h1, h2] at h
          | some y =>
            cases h3 : p3.asFloat with
            | none => simp [lineClass, h0, h1, h2, h3] at h
            | some bw =>
              cases h4 : p4.asFloat with
              | none => simp [lineClass, h0, h1, h2, h3, h4] at h
              | some bh =>
                simp only [lineClass, h0, h1, h2, h3, h4] at h
                by_cases hc : c ∈ classIds
                · rw [if_pos hc] at h
                  by_cases hr : 0 ≤ x ∧ x ≤ 1 ∧ 0 ≤ y ∧ y ≤ 1 ∧
                      0 ≤ bw ∧ bw ≤ 1 ∧ 0 ≤ bh ∧ bh ≤ 1
                  · obtain ⟨r1, r2, r3, r4, r5, r6, r7, r8⟩ := hr
                    refine ⟨rfl, ⟨c, by simp [h0], hc⟩, ?_⟩
                    intro t ht
                    simp only [List.tail_cons, List.mem_cons,
                      List.not_mem_nil, or_false] at ht
                    rcases ht with rfl | rfl | rfl | rfl
                    · exact ⟨x, h1, r1, r2⟩
                    · exact ⟨y, h2, r3, r4⟩
                    · exact ⟨bw, h3, r5, r6⟩
                    · exact ⟨bh, h4, r7, r8⟩
                  · rw [if_neg hr] at h
                    simp at h
                · rw [if_neg hc] at h
                  simp at h
    · rintro ⟨-, ⟨c, hc, hcm⟩, hq⟩
      simp only [List.head?_cons, Option.some_bind] at hc
      simp only [List.tail_cons] at hq
      obtain ⟨x, hx, hx0, hx1⟩ := hq p1 (by simp)
      obtain ⟨y, hy, hy0, hy1⟩ := hq p2 (by simp)
      obtain ⟨bw, hbw, hbw0, hbw1⟩ := hq p3 (by simp)
      obtain ⟨bh, hbh, hbh0, hbh1⟩ := hq p4 (by simp)
      simp [lineClass, hc, hx, hy, hbw, hbh, hcm, hx0, hx1, hy0, hy1,
        hbw0, hbw1, hbh0, hbh1]
  · simp only [lineClass, Option.isSome_none, Bool.false_eq_true, false_iff]
    rintro ⟨hlen, -, -⟩
    simp at hlen

/-- C5: a label line is accepted by the checker exactly when it has 5
tokens, a tabled class id first and four unit-interval floats after;
every failing line appends the file to the error files while accepted
lines of the same file still feed the class distribution, as the
characterizations of both outputs show; the concrete dataset whose only
label file holds a 4-token line followed by a well-formed class-2 line
is flagged as an error file yet still contributes that class-2 line. -/
theorem C5_line_validation (imageKeys labelKeys : List String)
    (content : String → List (List Tok)) (parts : List Tok) :
    ((lineClass parts).isSome = true ↔ specLineOk parts) ∧
    (checkYoloDataset imageKeys labelKeys content).errorFiles =
      (imageKeys.filter (fun k => k ∈ labelKeys)).flatMap
        (fun k => ((content k).filter (fun l => (lineClass l).isNone)).map (fun _ => k)) ∧
    (checkYoloDataset imageKeys labelKeys content).classDist =
      (imageKeys.filter (fun k => k ∈ labelKeys)).flatMap
        (fun k => (content k).filterMap lineClass) ∧
    checkYoloDataset ["a"] ["a"]
      (fun _ => [[Tok.tokInt 2, Tok.tokFloat 0, Tok.tokFloat 0, Tok.tokFloat 1],
                 [Tok.tokInt 2, Tok.tokFloat 0, Tok.tokFloat 0, Tok.tokFloat 1,
                  Tok.tokFloat 1]]) =
      ⟨[], [], ["a"], [2], false⟩ :=
  ⟨lineClass_isSome_iff parts, checker_errorFiles_eq imageKeys labelKeys content,
   checker_classDist_eq imageKeys labelKeys content, by decide⟩

theorem checkYoloDataset_congr (imageKeys labelKeys : List String)
    (c1 c2 : String → List (List Tok))
    (h : ∀ k ∈ imageKeys, k ∈ labelKeys → c1 k = c2 k) :
    checkYoloDataset imageKeys labelKeys c1 = checkYoloDataset imageKeys labelKeys c2 := by
  have hs : (imageKeys.filter (fun k => k ∈ labelKeys)).foldl
        (fun acc k => scanLabelFile k (c1 k) acc) ([], []) =
      (imageKeys.filter (fun k => k ∈ labelKeys)).foldl
        (fun acc k => scanLabelFile k (c2 k) acc) ([], []) := by
    rw [checkScan_eq, checkScan_eq]
    have h2 : ∀ k ∈ imageKeys.filter (fun k => k ∈ labelKeys), c1 k = c2 k := by
      intro k hk
      rw [List.mem_filter] at hk
      exact h k hk.1 (by simpa using hk.2)
    rw [Prod.mk.injEq]
    refine ⟨?_, ?_⟩ <;> · simp only [List.nil_append]
                          apply List.flatMap_congr
                          intro k hk
                          rw [h2 k hk]
  simp only [checkYoloDataset]
  rw [hs]

/-- C9: a label key without a matching image is reported as a dangling
reference, never lands in the error files, and its file content is never
consulted: replacing that file's content by anything leaves the whole
report unchanged. -/
theorem C9_dangling_label_content_ignored (imageKeys labelKeys : List String)
    (content : String → List (List Tok)) (k : String) (newLines : List (List Tok))
    (hk : k ∉ imageKeys) :
    (k ∈ labelKeys → k ∈ (checkYoloDataset imageKeys labelKeys content).missingImages) ∧
    k ∉ (checkYoloDataset imageKeys labelKeys content).errorFiles ∧
    checkYoloDataset imageKeys labelKeys (Function.update content k newLines) =
      checkYoloDataset imageKeys labelKeys content := by
  refine ⟨?_, ?_, ?_⟩
  · intro hkl
    simp [checkYoloDataset, List.mem_filter, hk, hkl]
  · rw [checker_errorFiles_eq]
    intro hmem
    rw [List.mem_flatMap] at hmem
    obtain ⟨x, hx, hkx⟩ := hmem
    rw [List.mem_filter] at hx
    have : k = x := by
      rcases List.mem_map.mp hkx with ⟨_, _, rfl⟩
      rfl
    exact hk (this ▸ hx.1)
  · apply checkYoloDataset_congr
    intro k2 hk2 _
    have : k2 ≠ k := fun h => hk (h ▸ hk2)
    exact Function.update_noteq this newLines content

/-- Witness for C9 at a concrete two-key dataset whose label key b has
no image. -/
theorem C9_dangling_label_content_ignored_witness :
    ("b" ∈ ["a", "b"] →
      "b" ∈ (checkYoloDataset ["a"] ["a", "b"] (fun _ => [])).missingImages) ∧
    "b" ∉ (checkYoloDataset ["a"] ["a", "b"] (fun _ => [])).errorFiles ∧
    checkYoloDataset ["a"] ["a", "b"]
        (Function.update (fun _ => []) "b" [[Tok.tokBad]]) =
      checkYoloDataset ["a"] ["a", "b"] (fun _ => []) :=
  C9_dangling_label_content_ignored ["a"] ["a", "b"] (fun _ => []) "b"
    [[Tok.tokBad]] (by decide)

/-! ### Ratio-based split assigner
Embeds scripts/split_dataset.py (split_yolo_dataset, lines 24-54).  The
script shuffles the key list with an unseeded random.shuffle and then
calls sklearn's train_test_split twice with random_state=42.  The
unseeded shuffle makes the ordering of its input the run's
nondeterministic input, so the embedding takes the post-shuffle ordering
as the argument.  train_test_split is external library code, modelled
from its documented behaviour: with a fixed random_state it draws a
permutation of the indices 0..n-1 depending only on n and the seed,
takes the first ceil(test_size*n) permuted positions as the test side
and the remaining positions as the train side; the seed-determined index
permutation is abstracted as a parameter assumed to be a permutation of
range n. -/

/-- Number of test samples sklearn assigns for a fractional test_size:
the ceiling of test_size times the sample count. -/
def nTestOf (q : ℚ) (n : ℕ) : ℕ := (Int.ceil (q * n)).toNat

/-- Model of one seeded train_test_split call: perm is the
seed-determined index permutation; the result is (train side, test
side). -/
def ttsModel {α : Type} (perm : List ℕ) (files : List α) (q : ℚ) :
    List α × List α :=
  let nTest := nTestOf q files.length
  ((perm.drop nTest).filterMap (fun i => files[i]?),
   (perm.take nTest).filterMap (fun i => files[i]?))

/-- Ratio-based split of split_yolo_dataset: validate that the ratios
sum to 1 within 1e-5 (else the script raises), split off train versus
the remainder at test_size = val+test, then split the remainder into
val and test at the renormalized ratio; p1 and p2 are the two
seed-determined index permutations; the result is (train, val, test). -/
def splitYoloDataset {α : Type} (p1 p2 : List ℕ) (shuffled : List α)
    (tr va te : ℚ) : Option (List α × List α × List α) :=
  if 1/100000 < |tr + va + te - 1| then none
  else
    let s1 := ttsModel p1 shuffled (va + te)
    let s2 := ttsModel p2 s1.2 (te / (va + te))
    some (s1.1, s2.1, s2.2)

/-- Determinism property the specification asserts of the ratio-based
split with its seed fixed: any two runs over the same input set of keys,
hence over any two shuffle orderings of the same keys, with the same
seed-determined index permutations, assign every key to the same split. -/
def SplitMembershipDeterministic : Prop :=
  ∀ (p1 p2 : List ℕ) (o1 o2 : List ℕ) (tr va te : ℚ)
    (t1 v1 s1 t2 v2 s2 : List ℕ),
    o1.Perm o2 →
    p1.Perm (List.range o1.length) →
    p2.Perm (List.range (ttsModel p1 o1 (va + te)).2.length) →
    splitYoloDataset p1 p2 o1 tr va te = some (t1, v1, s1) →
    splitYoloDataset p1 p2 o2 tr va te = some (t2, v2, s2) →
    ∀ k, (k ∈ t1 ↔ k ∈ t2) ∧ (k ∈ v1 ↔ k ∈ v2) ∧ (k ∈ s1 ↔ k ∈ s2)

theorem ceil_toNat_eq (q : ℚ) (m : ℕ) (h1 : (m : ℚ) - 1 < q) (h2 : q ≤ m) :
    (⌈q⌉).toNat = m := by
  have hz : ⌈q⌉ = (m : ℤ) := by
    rw [Int.ceil_eq_iff]
    exact ⟨by exact_mod_cast h1, by exact_mod_cast h2⟩
  rw [hz]
  simp

theorem nTestOf_stage1 : nTestOf (3/20 + 3/20) 2 = 1 := by
  simp only [nTestOf]
  exact ceil_toNat_eq _ 1 (by push_cast; norm_num) (by push_cast; norm_num)

theorem nTestOf_stage2 : nTestOf (3/20 / (3/20 + 3/20)) 1 = 1 := by
  simp only [nTestOf]
  exact ceil_toNat_eq _ 1 (by push_cast; norm_num) (by push_cast; norm_num)

theorem splitYolo_run1 :
    splitYoloDataset [0, 1] [0] [10, 20] (7/10) (3/20) (3/20) =
      some ([20], [], [10]) := by
  simp only [splitYoloDataset, ttsModel, List.length_cons, List.length_nil]
  rw [if_neg (by norm_num)]
  simp [nTestOf_stage1, nTestOf_stage2]

theorem splitYolo_run2 :
    splitYoloDataset [0, 1] [0] [20, 10] (7/10) (3/20) (3/20) =
      some ([10], [], [20]) := by
  simp only [splitYoloDataset, ttsModel, List.length_cons, List.length_nil]
  rw [if_neg (by norm_num)]
  simp [nTestOf_stage1, nTestOf_stage2]

theorem splitYolo_run3 :
    splitYoloDataset [1, 0] [0] [10, 20] (7/10) (3/20) (3/20) =
      some ([10], [], [20]) := by
  simp only [splitYoloDataset, ttsModel, List.length_cons, List.length_nil]
  rw [if_neg (by norm_num)]
  simp [nTestOf_stage1, nTestOf_stage2]

theorem splitYolo_run4 :
    splitYoloDataset [1, 0] [0] [20, 10] (7/10) (3/20) (3/20) =
      some ([20], [], [10]) := by
  simp only [splitYoloDataset, ttsModel, List.length_cons, List.length_nil]
  rw [if_neg (by norm_num)]
  simp [nTestOf_stage1, nTestOf_stage2]

/-- C3 counterexample: the split is not membership-deterministic.  With
ratios (0.7,0.15,0.15) and the two-key set {10,20}, the shuffle
orderings [10,20] and [20,10] of the same set send key 10 to test in one
run and to train in the other; the appended run equations show this for
both possible index permutations of two elements, so it holds for
whichever permutation the fixed seed determines, and the unseeded
random.shuffle before train_test_split makes both orderings reachable
runs. -/
theorem C3_determinism_counterexample :
    ¬ SplitMembershipDeterministic ∧
    splitYoloDataset [0, 1] [0] ([10, 20] : List ℕ) (7/10) (3/20) (3/20) =
      some ([20], [], [10]) ∧
    splitYoloDataset [0, 1] [0] ([20, 10] : List ℕ) (7/10) (3/20) (3/20) =
      some ([10], [], [20]) ∧
    splitYoloDataset [1, 0] [0] ([10, 20] : List ℕ) (7/10) (3/20) (3/20) =
      some ([10], [], [20]) ∧
    splitYoloDataset [1, 0] [0] ([20, 10] : List ℕ) (7/10) (3/20) (3/20) =
      some ([20], [], [10]) := by
  refine ⟨?_, splitYolo_run1, splitYolo_run2, splitYolo_run3, splitYolo_run4⟩
  intro hdet
  have h2len : (ttsModel [0, 1] ([10, 20] : List ℕ) (3/20 + 3/20)).2.length = 1 := by
    simp [ttsModel, nTestOf_stage1]
  have h := hdet [0, 1] [0] [10, 20] [20, 10] (7/10) (3/20) (3/20)
    [20] [] [10] [10] [] [20]
    (by decide) (by decide) (by rw [h2len]; decide)
    splitYolo_run1 splitYolo_run2 10
  have h1 := h.1
  simp at h1

theorem filterMap_getElem_of_lt {α : Type} (files : List α) (idx : List ℕ)
    (h : ∀ i ∈ idx, i < files.length) :
    (idx.filterMap (fun i => files[i]?)).length = idx.length := by
  induction idx with
  | nil => simp
  | cons i is ih =>
    have hi : i < files.length := h i (by simp)
    rw [List.filterMap_cons, List.getElem?_eq_getElem hi]
    simp only [List.length_cons]
    rw [ih (fun j hj => h j (by simp [hj]))]

theorem ttsModel_lengths {α : Type} (perm : List ℕ) (files : List α) (q : ℚ)
    (h : perm.Perm (List.range files.length)) :
    (ttsModel perm files q).1.length =
        files.length - nTestOf q files.length ∧
    (ttsModel perm files q).2.length =
        min (nTestOf q files.length) files.length := by
  have hplen : perm.length = files.length := by
    rw [h.length_eq, List.length_range]
  have hmem : ∀ i ∈ perm, i < files.length := by
    intro i hi
    have := h.mem_iff.mp hi
    simpa using this
  constructor
  · rw [ttsModel]
    simp only
    rw [filterMap_getElem_of_lt files _
        (fun i hi => hmem i (List.mem_of_mem_drop hi))]
    rw [List.length_drop, hplen]
  · rw [ttsModel]
    simp only
    rw [filterMap_getElem_of_lt files _
        (fun i hi => hmem i (List.mem_of_mem_take hi))]
    rw [List.length_take, hplen]

theorem range_filterMap_getElem {α : Type} (files : List α) :
    ((List.range files.length).filterMap (fun i => files[i]?)) = files := by
  induction files with
  | nil => simp
  | cons x xs ih =>
    rw [List.length_cons, List.range_succ_eq_map, List.filterMap_cons,
      List.filterMap_map]
    simp only [List.getElem?_cons_zero]
    have : (fun i => (x :: xs)[i]?) ∘ Nat.succ = fun i => xs[i]? := by
      funext i
      simp
    rw [this, ih]

theorem ttsModel_perm {α : Type} (perm : List ℕ) (files : List α) (q : ℚ)
    (h : perm.Perm (List.range files.length)) :
    ((ttsModel perm files q).2 ++ (ttsModel perm files q).1).Perm files := by
  rw [ttsModel]
  simp only
  rw [← List.filterMap_append, List.take_append_drop]
  have h2 := h.filterMap (fun i => files[i]?)
  rw [range_filterMap_getElem] at h2
  exact h2

/-- C6: given ratios summing to 1 and valid seed-determined index
permutations, the three output splits are an exact partition of the
input keys: together they are a permutation of the input (nothing lost,
nothing duplicated), and for duplicate-free input no key lands in two
splits. -/
theorem C6_split_partition {α : Type} (p1 p2 : List ℕ) (keys : List α)
    (tr va te : ℚ)
    (h1 : p1.Perm (List.range keys.length))
    (h2 : p2.Perm (List.range (ttsModel p1 keys (va + te)).2.length))
    (hr : tr + va + te = 1) :
    ∃ t v s, splitYoloDataset p1 p2 keys tr va te = some (t, v, s) ∧
      (t ++ v ++ s).Perm keys ∧
      (keys.Nodup →
        ∀ k : α, (k ∈ t → k ∉ v ∧ k ∉ s) ∧ (k ∈ v → k ∉ s)) := by
  have hguard : ¬ (1/100000 : ℚ) < |tr + va + te - 1| := by
    rw [hr]
    norm_num
  have hs1 : ((ttsModel p1 keys (va + te)).2 ++ (ttsModel p1 keys (va + te)).1).Perm
      keys := ttsModel_perm p1 keys (va + te) h1
  have hs2 := ttsModel_perm p2 (ttsModel p1 keys (va + te)).2 (te / (va + te)) h2
  have hperm : ((ttsModel p1 keys (va + te)).1 ++
      (ttsModel p2 (ttsModel p1 keys (va + te)).2 (te / (va + te))).1 ++
      (ttsModel p2 (ttsModel p1 keys (va + te)).2 (te / (va + te))).2).Perm keys := by
    rw [List.append_assoc]
    exact (List.Perm.append_left _ ((List.perm_append_comm).trans hs2)).trans
      ((List.perm_append_comm).trans hs1)
  refine ⟨(ttsModel p1 keys (va + te)).1,
    (ttsModel p2 (ttsModel p1 keys (va + te)).2 (te / (va + te))).1,
    (ttsModel p2 (ttsModel p1 keys (va + te)).2 (te / (va + te))).2,
    ?_, hperm, ?_⟩
  · rw [splitYoloDataset, if_neg hguard]
  · intro hnd k
    have hp := hperm.symm.nodup hnd
    rw [List.nodup_append] at hp
    obtain ⟨htv, -, hdisj⟩ := hp
    rw [List.nodup_append] at htv
    obtain ⟨-, -, hdisj2⟩ := htv
    exact ⟨fun hkt => ⟨fun hkv => hdisj2 hkt hkv,
      fun hks => hdisj (by simp [hkt]) hks⟩,
      fun hkv hks => hdisj (by simp [hkv]) hks⟩

/-- Witness for C6 at the two-key set [10,20] with ratios
(0.7,0.15,0.15) and concrete index permutations. -/
theorem C6_split_partition_witness :
    ∃ t v s, splitYoloDataset [0, 1] [0] ([10, 20] : List ℕ)
        (7/10) (3/20) (3/20) = some (t, v, s) ∧
      (t ++ v ++ s).Perm [10, 20] ∧
      (([10, 20] : List ℕ).Nodup →
        ∀ k : ℕ, (k ∈ t → k ∉ v ∧ k ∉ s) ∧ (k ∈ v → k ∉ s)) := by
  have h2len : (ttsModel [0, 1] ([10, 20] : List ℕ) (3/20 + 3/20)).2.length = 1 := by
    simp [ttsModel, nTestOf_stage1]
  exact C6_split_partition [0, 1] [0] [10, 20] (7/10) (3/20) (3/20)
    (by decide) (by rw [h2len]; decide) (by norm_num)

/-- C3 amended: with the seed-determined index permutations valid, the
three split sizes depend only on the input length and the ratios, so two
runs over the same input set always produce identical split sizes;
membership itself is not deterministic, because the pre-split
random.shuffle is unseeded (see the counterexample). -/
theorem C3_sizes_deterministic {α β : Type} (p1 p2 q1 q2 : List ℕ)
    (o1 : List α) (o2 : List β) (tr va te : ℚ)
    (hp1 : p1.Perm (List.range o1.length))
    (hp2 : p2.Perm (List.range (ttsModel p1 o1 (va + te)).2.length))
    (hq1 : q1.Perm (List.range o2.length))
    (hq2 : q2.Perm (List.range (ttsModel q1 o2 (va + te)).2.length))
    (hlen : o1.length = o2.length) (hr : tr + va + te = 1) :
    ∃ t1 v1 s1 t2 v2 s2,
      splitYoloDataset p1 p2 o1 tr va te = some (t1, v1, s1) ∧
      splitYoloDataset q1 q2 o2 tr va te = some (t2, v2, s2) ∧
      t1.length = t2.length ∧ v1.length = v2.length ∧ s1.length = s2.length := by
  have hguard : ¬ (1/100000 : ℚ) < |tr + va + te - 1| := by
    rw [hr]
    norm_num
  obtain ⟨hA1, hA2⟩ := ttsModel_lengths p1 o1 (va + te) hp1
  obtain ⟨hB1, hB2⟩ := ttsModel_lengths q1 o2 (va + te) hq1
  have htemp : (ttsModel p1 o1 (va + te)).2.length =
      (ttsModel q1 o2 (va + te)).2.length := by
    rw [hA2, hB2, hlen]
  obtain ⟨hA3, hA4⟩ :=
    ttsModel_lengths p2 (ttsModel p1 o1 (va + te)).2 (te / (va + te)) hp2
  obtain ⟨hB3, hB4⟩ :=
    ttsModel_lengths q2 (ttsModel q1 o2 (va + te)).2 (te / (va + te)) hq2
  refine ⟨_, _, _, _, _, _,
    by rw [splitYoloDataset, if_neg hguard],
    by rw [splitYoloDataset, if_neg hguard], ?_, ?_, ?_⟩
  · rw [hA1, hB1, hlen]
  · rw [hA3, hB3, htemp]
  · rw [hA4, hB4, htemp]

/-- Witness for C3 amended: two runs over different two-key orderings
produce the same split sizes. -/
theorem C3_sizes_deterministic_witness :
    ∃ t1 v1 s1 t2 v2 s2,
      splitYoloDataset [0, 1] [0] ([10, 20] : List ℕ) (7/10) (3/20) (3/20) =
        some (t1, v1, s1) ∧
      splitYoloDataset [0, 1] [0] ([20, 10] : List ℕ) (7/10) (3/20) (3/20) =
        some (t2, v2, s2) ∧
      t1.length = t2.length ∧ v1.length = v2.length ∧ s1.length = s2.length := by
  have h2lenA : (ttsModel [0, 1] ([10, 20] : List ℕ) (3/20 + 3/20)).2.length = 1 := by
    simp [ttsModel, nTestOf_stage1]
  have h2lenB : (ttsModel [0, 1] ([20, 10] : List ℕ) (3/20 + 3/20)).2.length = 1 := by
    simp [ttsModel, nTestOf_stage1]
  exact C3_sizes_deterministic [0, 1] [0] [0, 1] [0] [10, 20] [20, 10]
    (7/10) (3/20) (3/20)
    (by decide) (by rw [h2lenA]; decide) (by decide) (by rw [h2lenB]; decide)
    (by decide) (by norm_num)

/-! ### VOC conversion driver
Embeds scripts/convert_voc_to_yolo_with_splits.py (process_split, lines
74-159): for each base name of the split list the XML is parsed and,
when the size, filename and annotation are present, the label file is
written from the surviving objects; the image is then copied only when
the source image file exists, a missing image being reported by a
printed warning while the loop continues with the next sample. -/

/-- One sample of a split list, as process_split sees it after XML
parsing: existence flags for the XML file and its size and filename
fields, the image dimensions, the parsed objects (class name plus
optional bounding box) and whether the referenced image file exists. -/
structure VocSample (K : Type) where
  key : K
  xmlExists : Bool
  hasSize : Bool
  width : ℚ
  height : ℚ
  hasFilename : Bool
  objects : List (String × Option BoxA)
  imageExists : Bool
deriving DecidableEq, Repr

/-- Sample reaches the label-writing stage: its XML exists and carries
size and filename metadata (otherwise process_split skips the sample
with a warning before writing anything). -/
def parseOk {K : Type} (s : VocSample K) : Bool :=
  s.xmlExists && s.hasSize && s.hasFilename

/-- Label lines written for one sample by the inner object loop:
objects with an unknown class name or a missing bndbox are skipped, the
rest are serialized by yoloRecordLine. -/
def sampleLines {K : Type} (s : VocSample K) : List String :=
  s.objects.filterMap (fun o =>
    match clsIdOfName o.1, o.2 with
    | some c, some b => some (yoloRecordLine c b s.width s.height)
    | _, _ => none)

/-- Accumulated effects of one process_split run. -/
structure SplitRunResult (K : Type) where
  labels : List (K × List String)
  copied : List K
  imageWarnings : List K
  processedCount : ℕ
deriving DecidableEq, Repr

/-- Body of the per-sample loop of process_split: skip when the XML is
absent or metadata is missing; otherwise write the label file, and copy
the image when it exists (counting the sample) or record a
missing-image warning when it does not. -/
def processStep {K : Type} (acc : SplitRunResult K) (s : VocSample K) :
    SplitRunResult K :=
  if parseOk s then
    let acc2 : SplitRunResult K :=
      { acc with labels := acc.labels ++ [(s.key, sampleLines s)] }
    if s.imageExists then
      { acc2 with copied := acc2.copied ++ [s.key],
                  processedCount := acc2.processedCount + 1 }
    else
      { acc2 with imageWarnings := acc2.imageWarnings ++ [s.key] }
  else acc

/-- process_split over a batch of samples. -/
def processSplit {K : Type} (batch : List (VocSample K)) : SplitRunResult K :=
  batch.foldl processStep ⟨[], [], [], 0⟩

theorem processSplit_fold {K : Type} (batch : List (VocSample K))
    (acc : SplitRunResult K) :
    batch.foldl processStep acc =
      ⟨acc.labels ++ (batch.filter parseOk).map (fun s => (s.key, sampleLines s)),
       acc.copied ++
         (batch.filter (fun s => parseOk s && s.imageExists)).map (fun s => s.key),
       acc.imageWarnings ++
         (batch.filter (fun s => parseOk s && !s.imageExists)).map (fun s => s.key),
       acc.processedCount +
         (batch.filter (fun s => parseOk s && s.imageExists)).length⟩ := by
  induction batch generalizing acc with
  | nil => simp
  | cons s rest ih =>
    simp only [List.foldl_cons, List.filter_cons]
    by_cases h1 : parseOk s = true
    · by_cases h2 : s.imageExists = true
      · rw [ih]
        simp [processStep, h1, h2, Nat.add_assoc, Nat.add_comm 1]
      · rw [ih]
        simp only [Bool.not_eq_true] at h2
        simp [processStep, h1, h2]
    · rw [ih]
      simp only [Bool.not_eq_true] at h1
      simp [processStep, h1]

theorem processSplit_eq {K : Type} (batch : List (VocSample K)) :
    processSplit batch =
      ⟨(batch.filter parseOk).map (fun s => (s.key, sampleLines s)),
       (batch.filter (fun s => parseOk s && s.imageExists)).map (fun s => s.key),
       (batch.filter (fun s => parseOk s && !s.imageExists)).map (fun s => s.key),
       (batch.filter (fun s => parseOk s && s.imageExists)).length⟩ := by
  rw [processSplit, processSplit_fold]
  simp

/-- C8: a sample whose annotation parses but whose image file is absent
still gets its label file written, is skipped for the image copy, is
reported by a missing-image warning, and never aborts the run: every
parsed sample of the batch has its label written regardless. -/
theorem C8_missing_image_nonfatal {K : Type} (batch : List (VocSample K))
    (s : VocSample K) (hs : s ∈ batch) (hok : parseOk s = true)
    (himg : s.imageExists = false)
    (hnd : (batch.map (fun t => t.key)).Nodup) :
    (s.key, sampleLines s) ∈ (processSplit batch).labels ∧
    s.key ∉ (processSplit batch).copied ∧
    s.key ∈ (processSplit batch).imageWarnings ∧
    ∀ t ∈ batch, parseOk t = true →
      (t.key, sampleLines t) ∈ (processSplit batch).labels := by
  rw [processSplit_eq]
  refine ⟨?_, ?_, ?_, ?_⟩
  · exact List.mem_map.mpr ⟨s, List.mem_filter.mpr ⟨hs, hok⟩, rfl⟩
  · intro hmem
    obtain ⟨t, htf, hkey⟩ := List.mem_map.mp hmem
    rw [List.mem_filter] at htf
    obtain ⟨htb, hflag⟩ := htf
    have : t = s := List.inj_on_of_nodup_map hnd htb hs hkey
    subst this
    rw [himg] at hflag
    simp at hflag
  · refine List.mem_map.mpr ⟨s, List.mem_filter.mpr ⟨hs, ?_⟩, rfl⟩
    rw [hok, himg]
    rfl
  · intro t htb htok
    exact List.mem_map.mpr ⟨t, List.mem_filter.mpr ⟨htb, htok⟩, rfl⟩

/-- Witness for C8 on a two-sample batch whose first sample has no
image file. -/
theorem C8_missing_image_nonfatal_witness :
    ((⟨1, true, true, 100, 100, true, [], false⟩ : VocSample ℕ).key,
      sampleLines (⟨1, true, true, 100, 100, true, [], false⟩ : VocSample ℕ)) ∈
      (processSplit [⟨1, true, true, 100, 100, true, [], false⟩,
                     ⟨2, true, true, 100, 100, true, [], true⟩]).labels ∧
    (1 : ℕ) ∉ (processSplit [(⟨1, true, true, 100, 100, true, [], false⟩ : VocSample ℕ),
                     ⟨2, true, true, 100, 100, true, [], true⟩]).copied ∧
    (1 : ℕ) ∈ (processSplit [(⟨1, true, true, 100, 100, true, [], false⟩ : VocSample ℕ),
                     ⟨2, true, true, 100, 100, true, [], true⟩]).imageWarnings ∧
    ∀ t ∈ [(⟨1, true, true, 100, 100, true, [], false⟩ : VocSample ℕ),
           ⟨2, true, true, 100, 100, true, [], true⟩], parseOk t = true →
      (t.key, sampleLines t) ∈
        (processSplit [(⟨1, true, true, 100, 100, true, [], false⟩ : VocSample ℕ),
                       ⟨2, true, true, 100, 100, true, [], true⟩]).labels :=
  C8_missing_image_nonfatal
    [⟨1, true, true, 100, 100, true, [], false⟩,
     ⟨2, true, true, 100, 100, true, [], true⟩]
    ⟨1, true, true, 100, 100, true, [], false⟩
    (by simp) rfl rfl (by simp)

/-! ### Image copy under a forced .jpg name
Embeds scripts/split_dataset.py lines 72-79: for each base key the
extension candidates are tried in order and the first existing source
file is copied byte-for-byte (shutil.copy2) to the destination under
the base name plus .jpg, whatever the source extension was. -/

/-- Extension candidates of the copy loop, in trial order. -/
def imageExtensions : List String :=
  [".jpg", ".jpeg", ".png", ".JPG", ".JPEG", ".PNG"]

/-- First extension candidate whose file exists in the source store;
fs maps a file name to its content when the file exists. -/
def findFirstImage {C : Type} (fs : String → Option C) (base : String) :
    List String → Option (String × C)
  | [] => none
  | e :: rest =>
    match fs (base ++ e) with
    | some c => some (e, c)
    | none => findFirstImage fs base rest

/-- Copy of lines 74-79: the found source content is written unchanged
under the destination name base ++ .jpg. -/
def copyImageAsJpg {C : Type} (fs : String → Option C) (base : String) :
    Option (String × C) :=
  (findFirstImage fs base imageExtensions).map (fun p => (base ++ ".jpg", p.2))

theorem findFirstImage_spec {C : Type} (fs : String → Option C) (base : String)
    (exts : List String) (h : ∃ e ∈ exts, (fs (base ++ e)).isSome = true) :
    ∃ e c, e ∈ exts ∧ fs (base ++ e) = some c ∧
      findFirstImage fs base exts = some (e, c) := by
  induction exts with
  | nil => simp at h
  | cons e rest ih =>
    cases hfe : fs (base ++ e) with
    | some c => exact ⟨e, c, by simp, hfe, by simp [findFirstImage, hfe]⟩
    | none =>
      obtain ⟨e2, he2, hsome⟩ := h
      rcases List.mem_cons.mp he2 with rfl | hmem
      · rw [hfe] at hsome
        simp at hsome
      · obtain ⟨e3, c3, hm, hf, hr⟩ := ih ⟨e2, hmem, hsome⟩
        exact ⟨e3, c3, by simp [hm], hf, by simp [findFirstImage, hfe, hr]⟩

/-- C10: whenever the source image exists under some candidate
extension (the three lowercase and three uppercase candidates), the
copied file is named base plus .jpg whatever the matched extension was,
and its content is the first matching source file's content, unchanged. -/
theorem C10_copy_forced_jpg_name {C : Type} (fs : String → Option C)
    (base : String)
    (h : ∃ e ∈ imageExtensions, (fs (base ++ e)).isSome = true) :
    ∃ e c, e ∈ imageExtensions ∧ fs (base ++ e) = some c ∧
      copyImageAsJpg fs base = some (base ++ ".jpg", c) := by
  obtain ⟨e, c, hm, hf, hr⟩ := findFirstImage_spec fs base imageExtensions h
  exact ⟨e, c, hm, hf, by simp [copyImageAsJpg, hr]⟩

/-- Witness for C10: a store holding only the file k.png; the copy is
named k.jpg and carries the png file's content. -/
theorem C10_copy_forced_jpg_name_witness :
    (∃ e ∈ imageExtensions,
      ((fun n => if n = "k.png" then some (7 : ℕ) else none) ("k" ++ e)).isSome
        = true) ∧
    ∃ e c, e ∈ imageExtensions ∧
      (fun n => if n = "k.png" then some (7 : ℕ) else none) ("k" ++ e) = some c ∧
      copyImageAsJpg (fun n => if n = "k.png" then some (7 : ℕ) else none) "k" =
        some ("k" ++ ".jpg", c) := by
  have h : ∃ e ∈ imageExtensions,
      ((fun n => if n = "k.png" then some (7 : ℕ) else none) ("k" ++ e)).isSome
        = true := ⟨".png", by decide, by decide⟩
  exact ⟨h, C10_copy_forced_jpg_name (fun n => if n = "k.png" then some 7 else none)
    "k" h⟩

end Htt2

